import Mathlib

/-!
Verification of the slot reconciliation engine of `lead-inspector`
(`src/main.rs`), a tool that inspects a Solana leader schedule for one
validator identity, groups its assigned slots into bounded contiguous
blocks, checks which slots were actually produced, and annotates gaps
with neighbor-leader and skip-blame enrichment data.

The Rust code is shallowly embedded: `u64` values become `Nat` (with
explicit wrap-around modulo `2 ^ 64` where the source may underflow),
`i64` arithmetic becomes `Int`, JSON field access that may fail becomes
`Option`, and the network environment becomes a record of pure
functions.  Console output is modelled as a list of structured lines.
-/

namespace LeadInspector

/-- Width modulus of the Rust `u64` type. -/
def U64 : Nat := 2 ^ 64

/-- Wrapping subtraction on `u64` values (Rust release-mode semantics of
`a - b` on `u64`); for `a b < 2 ^ 64` this is the two's-complement wrap. -/
def u64Sub (a b : Nat) : Nat := (a + U64 - b) % U64

/-- Embedding of the current-epoch branch of the epoch-first-slot
computation, `epoch_info.absolute_slot - epoch_info.slot_index`
(main.rs line 55): an unchecked `u64` subtraction. -/
def currentEpochFirstSlot (absoluteSlot slotIndex : Nat) : Nat :=
  u64Sub absoluteSlot slotIndex

/-- The Rust cast `x as i64` of a `u64` value: two's-complement
reinterpretation, so a value of at least `2 ^ 63` becomes negative
(wrapping is the defined behavior of `as` casts in every build mode). -/
def toI64 (x : Nat) : Int :=
  if x % U64 < 2 ^ 63 then ((x % U64 : Nat) : Int)
  else ((x % U64 : Nat) : Int) - (2 ^ 64 : Int)

/-- Wrapping of an `i64` arithmetic result into `[-2 ^ 63, 2 ^ 63)`
(Rust release-mode overflow semantics, as for `u64Sub`). -/
def i64Wrap (z : Int) : Int := (z + 2 ^ 63) % 2 ^ 64 - 2 ^ 63

/-- Embedding of the epoch-first-slot computation (main.rs lines 52-63).
For the requested epoch equal to the current one the `u64` subtraction is
used; otherwise `(epoch as i64 - current_epoch as i64) * slots_in_epoch
as i64` is added to `absolute_slot as i64 - slot_index as i64`, with the
`as i64` casts of the `u64` inputs reinterpreting (`toI64`) and every
`i64` operation wrapping (`i64Wrap`), then clamped below at 0 by
`.max(0)` and cast back to `u64`. -/
def epochFirstSlot (epoch currentEpoch absoluteSlot slotIndex slotsInEpoch : Nat) : Nat :=
  if epoch = currentEpoch then
    currentEpochFirstSlot absoluteSlot slotIndex
  else
    let slotsBetweenEpochs :=
      i64Wrap (i64Wrap (toI64 epoch - toI64 currentEpoch) * toI64 slotsInEpoch)
    (max (i64Wrap (i64Wrap (toI64 absoluteSlot - toI64 slotIndex) + slotsBetweenEpochs))
      0).toNat

/-- Embedding of the slot grouping loop (main.rs lines 111-123), with the
accumulated current block as an explicit argument.  Each slot is pushed
onto the current block; the block is closed when the slot is the last of
the input, the next slot is not exactly one greater, or the block has
reached 4 slots. -/
def groupBlocksAux : List Nat → List Nat → List (List Nat)
  | [], _ => []
  | [slot], block => [block ++ [slot]]
  | slot :: next :: rest, block =>
      let block' := block ++ [slot]
      if next ≠ slot + 1 ∨ block'.length = 4 then
        block' :: groupBlocksAux (next :: rest) []
      else
        groupBlocksAux (next :: rest) block'

/-- Grouping of the sorted absolute slots into blocks of consecutive
slots of at most 4 slots (main.rs lines 111-123). -/
def groupBlocks (slots : List Nat) : List (List Nat) :=
  groupBlocksAux slots []

/-- Outcome of checking one slot (main.rs lines 156-177): `none` when the
slot was produced by the target validator (nothing pushed onto
`non_produced_slots`), otherwise the pushed pair of the slot and the
resolved producer identity (if any). -/
def checkSlot (blockExists : Nat → Bool) (slotLeaders : Nat → List String)
    (target : String) (slot : Nat) : Option (Nat × Option String) :=
  if blockExists slot then
    match (slotLeaders slot).head? with
    | some leader => if leader ≠ target then some (slot, some leader) else none
    | none => some (slot, none)
  else
    some (slot, none)

/-- The `non_produced_slots` list accumulated over a block (main.rs lines
148-186): future slots (`slot > current_slot`) are skipped, every other
slot is checked and its non-produced record (if any) pushed. -/
def nonProducedSlots (blockExists : Nat → Bool) (slotLeaders : Nat → List String)
    (target : String) (currentSlot : Nat) (block : List Nat) :
    List (Nat × Option String) :=
  block.filterMap (fun slot =>
    if slot > currentSlot then none else checkSlot blockExists slotLeaders target slot)

/-- One entry of the skip-blame `data.validators[]` array; the
`identity_pubkey` field is `none` when `as_str()` fails (missing or
non-string field, main.rs lines 226-228). -/
structure SkipEntry where
  identity_pubkey : Option String
deriving Repr, DecidableEq

/-- Parsed skip-blame response body: `validators = none` models
`json["data"]["validators"].as_array()` returning `None` (the field is
absent or not an array, main.rs line 223). -/
structure SkipBlameData where
  validators : Option (List SkipEntry)
deriving Repr, DecidableEq

/-- One entry of the latency leaderboard `records[]` array;
each field is `none` when the corresponding `as_str()`/`as_u64()` fails
(main.rs lines 249-251). -/
structure LatRecord where
  nodeAddress : Option String
  totalLatency : Option Nat
  votedSlots : Option Nat
deriving Repr, DecidableEq

/-- Parsed latency leaderboard response body: `records = none` models
`json["records"].as_array()` returning `None` (main.rs line 247). -/
structure LatencyResp where
  records : Option (List LatRecord)
deriving Repr, DecidableEq

/-- Membership test against the skip-blame list (main.rs lines 225-229):
`any` entry whose `identity_pubkey` string equals the previous leader. -/
def isBadValidator (vals : List SkipEntry) (prevVal : String) : Bool :=
  vals.any (fun bv =>
    match bv.identity_pubkey with
    | some pk => pk = prevVal
    | none => false)

/-- Embedding of `records.iter().enumerate().find(...)` (main.rs line
249): the first record, with its zero-based index, whose `nodeAddress`
equals the identity. -/
def findRecord (i : Nat) (records : List LatRecord) (idStr : String) :
    Option (Nat × LatRecord) :=
  match records with
  | [] => none
  | r :: rs =>
      if r.nodeAddress = some idStr then some (i, r)
      else findRecord (i + 1) rs idStr

/-- Detail computed from the matched record (main.rs lines 250-268):
when both `totalLatency` and `votedSlots` are numeric, the pair of
`rank = index + 1` and `avg_latency = total_latency / voted_slots` (the
`f64` quotient modelled as a rational); otherwise `none`. -/
def recordDetail (index : Nat) (record : LatRecord) : Option (Nat × ℚ) :=
  match record.totalLatency, record.votedSlots with
  | some totalLatency, some votedSlots =>
      some (index + 1, (totalLatency : ℚ) / (votedSlots : ℚ))
  | _, _ => none

/-- Latency enrichment detail (main.rs lines 249-268): first matching
record by `nodeAddress`, then `recordDetail`; `none` when no record
matches (detail silently omitted). -/
def latencyDetail (records : List LatRecord) (idStr : String) : Option (Nat × ℚ) :=
  match findRecord 0 records idStr with
  | some (index, record) => recordDetail index record
  | none => none

/-- Structured model of one console output line of the per-block report
(main.rs lines 208-299); the wall-clock estimate of the header line is
elided (floating-point system time, out of the claims' scope). -/
inductive OutputLine
  | blockHeader (slots : List Nat)
  | prevLeaderOnBadList (slot : Nat) (idStr : String) (avgLatency : ℚ) (rank : Nat)
  | prevLeaderPlain (slot : Nat) (idStr : String)
  | warningValidatorsMissing
  | prevLeaderUnknown (slot : Nat)
  | ourSlots (firstSlot lastSlot : Nat) (target : String)
  | nextLeader (slot : Nat) (idStr : String)
  | nextLeaderUnknown (slot : Nat)
  | slotProducedByOther (slot : Nat) (idStr : String)
  | slotNotProduced (slot : Nat)
deriving Repr, DecidableEq

/-- Network requests issued after the leader schedule has been
retrieved: block-existence checks (`get_blocks`), slot-leader lookups
(`get_slot_leaders`), the skip-blame `GET` and the latency `POST`. -/
inductive NetCall
  | blockCheck (slot : Nat)
  | slotLeaderLookup (slot : Nat)
  | skipBlameFetch
  | latencyFetch
deriving Repr, DecidableEq

/-- Network calls of the first pass over a block (main.rs lines
151-186): for every non-future slot one `get_blocks` call, followed by a
`get_slot_leaders` call when a block exists there. -/
def checkCalls (blockExists : Nat → Bool) (currentSlot : Nat) (block : List Nat) :
    List NetCall :=
  block.flatMap (fun slot =>
    if slot > currentSlot then []
    else
      NetCall.blockCheck slot ::
        (if blockExists slot then [NetCall.slotLeaderLookup slot] else []))

/-- Reporting of the previous-slot leader with enrichment (main.rs lines
211-279), returning the produced output lines and issued HTTP calls.
The skip-blame fetch happens whenever a previous leader was resolved;
the latency fetch only when that leader is on the bad list. -/
def reportPrevLeader (skip : SkipBlameData) (lat : LatencyResp)
    (previousSlot : Nat) (prevVal? : Option String) :
    List OutputLine × List NetCall :=
  match prevVal? with
  | some prevVal =>
      match skip.validators with
      | some badValidators =>
          if isBadValidator badValidators prevVal then
            match lat.records with
            | some records =>
                match latencyDetail records prevVal with
                | some (rank, avgLatency) =>
                    ([.prevLeaderOnBadList previousSlot prevVal avgLatency rank],
                      [.skipBlameFetch, .latencyFetch])
                | none => ([], [.skipBlameFetch, .latencyFetch])
            | none => ([], [.skipBlameFetch, .latencyFetch])
          else
            ([.prevLeaderPlain previousSlot prevVal], [.skipBlameFetch])
      | none => ([.warningValidatorsMissing], [.skipBlameFetch])
  | none => ([.prevLeaderUnknown previousSlot], [])

/-- Rendering of the per-slot outcome lines (main.rs lines 290-299). -/
def nonProducedLines (nps : List (Nat × Option String)) : List OutputLine :=
  nps.map (fun p =>
    match p.2 with
    | some leader => .slotProducedByOther p.1 leader
    | none => .slotNotProduced p.1)

/-- Pure environment standing for the chain RPC node and the two HTTP
services, with responses already transport- and JSON-decoded (any
transport or JSON-parse failure aborts the Rust run before the logic
modelled here). -/
structure Env where
  currentEpoch : Nat
  requestedEpoch : Option Nat
  absoluteSlot : Nat
  slotIndex : Nat
  slotsInEpoch : Nat
  currentSlot : Nat
  leaderSchedule : List (String × List Nat)
  blockExists : Nat → Bool
  slotLeaders : Nat → List String
  skip : SkipBlameData
  lat : LatencyResp

/-- Global absolute-slot to identity entries built from the leader
schedule (main.rs lines 94-100): every identity's every relative slot,
shifted by the epoch's first slot. -/
def scheduleEntries (schedule : List (String × List Nat)) (firstSlot : Nat) :
    List (Nat × String) :=
  schedule.flatMap (fun p => p.2.map (fun rel => (firstSlot + rel, p.1)))

/-- Lookup in the `slot_validator_map` `BTreeMap` (main.rs line 98):
later inserts overwrite, hence the last matching entry wins. -/
def slotLookup (schedule : List (String × List Nat)) (firstSlot slot : Nat) :
    Option String :=
  ((scheduleEntries schedule firstSlot).reverse.find? (fun e => e.1 = slot)).map (·.2)

/-- Processing and reporting of one block (main.rs lines 146-300):
first pass collecting the non-produced slots, then, only when that list
is non-empty, the block report with neighbor-leader resolution and
enrichment.  The `unwrap`s on `block.first()`/`block.last()` are safe
exactly because the non-produced list is then non-empty, hence the block
is too; the embedding defaults them to 0 in the unreachable case. -/
def reportBlock (env : Env) (target : String) (firstEpochSlot : Nat)
    (block : List Nat) : List OutputLine × List NetCall :=
  let nps := nonProducedSlots env.blockExists env.slotLeaders target env.currentSlot block
  let calls := checkCalls env.blockExists env.currentSlot block
  if nps.isEmpty then ([], calls)
  else
    let firstSlot := block.head?.getD 0
    let lastSlot := block.getLast?.getD 0
    let previousSlot := firstSlot - 1
    let nextSlot := lastSlot + 1
    let prevVal? := slotLookup env.leaderSchedule firstEpochSlot previousSlot
    let nextVal? := slotLookup env.leaderSchedule firstEpochSlot nextSlot
    let prev := reportPrevLeader env.skip env.lat previousSlot prevVal?
    let nextLines : List OutputLine :=
      match nextVal? with
      | some nextVal => [.nextLeader nextSlot nextVal]
      | none => [.nextLeaderUnknown nextSlot]
    (OutputLine.blockHeader block :: prev.1 ++
        [OutputLine.ourSlots firstSlot lastSlot target] ++
        nextLines ++ nonProducedLines nps,
      calls ++ prev.2)

/-- Insertion of a slot into an ascending list, used to model
`sort_unstable` (main.rs line 109); on the total order of `u64` slot
numbers the unstable sort is extensionally the ascending sort. -/
def insertSorted (x : Nat) : List Nat → List Nat
  | [] => [x]
  | y :: ys => if x ≤ y then x :: y :: ys else y :: insertSorted x ys

/-- Ascending sort of the absolute slots, modelling `sort_unstable`
(main.rs line 109). -/
def sortSlots (l : List Nat) : List Nat := l.foldr insertSorted []

/-- Outcome of a run of the reconciliation engine: the early successful
`return Ok(())` when the validator is absent from the schedule (main.rs
lines 82-88), or the completed pass over all blocks. -/
inductive RunOutcome
  | notScheduled
  | completed (output : List OutputLine)
deriving Repr, DecidableEq

/-- The engine after argument validation (main.rs lines 39-306): epoch
first slot, leader schedule lookup, absolute-slot conversion, sorting,
grouping and per-block processing, together with the trace of network
calls issued after the leader schedule was retrieved. -/
def run (env : Env) (target : String) : RunOutcome × List NetCall :=
  let epoch := env.requestedEpoch.getD env.currentEpoch
  let firstEpochSlot :=
    epochFirstSlot epoch env.currentEpoch env.absoluteSlot env.slotIndex env.slotsInEpoch
  match env.leaderSchedule.lookup target with
  | none => (.notScheduled, [])
  | some ourSlots =>
      let ourAbsoluteSlots := sortSlots (ourSlots.map (fun rel => firstEpochSlot + rel))
      let blocks := groupBlocks ourAbsoluteSlots
      let reports := blocks.map (reportBlock env target firstEpochSlot)
      (.completed (reports.flatMap (·.1)), reports.flatMap (·.2))

/-- Slot numbers printed by one output line: the report mentions a slot
when some line carries its number. -/
def mentionedSlots : OutputLine → List Nat
  | .blockHeader slots => slots
  | .prevLeaderOnBadList s _ _ _ => [s]
  | .prevLeaderPlain s _ => [s]
  | .warningValidatorsMissing => []
  | .prevLeaderUnknown s => [s]
  | .ourSlots f l _ => [f, l]
  | .nextLeader s _ => [s]
  | .nextLeaderUnknown s => [s]
  | .slotProducedByOther s _ => [s]
  | .slotNotProduced s => [s]

/-- The console output of a run (empty for the not-scheduled early
return, whose only line is the not-scheduled message). -/
def runOutput (env : Env) (target : String) : List OutputLine :=
  match (run env target).1 with
  | .notScheduled => []
  | .completed output => output

/-- Test fixture: validator T is scheduled at absolute slots 100 and
101, the chain's current slot is 100 (so slot 101 is in the future), and
no block exists anywhere. -/
def envFut : Env :=
  ⟨0, none, 0, 0, 10, 100, [("T", [100, 101])], fun _ => false, fun _ => [],
    ⟨some []⟩, ⟨some []⟩⟩

/-! Helper lemmas -/

lemma U64_pos : 0 < U64 := by norm_num [U64]

lemma u64Sub_of_le {a b : Nat} (hba : b ≤ a) (ha : a < U64) : u64Sub a b = a - b := by
  have hU : 0 < U64 := U64_pos
  have h1 : a + U64 - b = U64 + (a - b) := by omega
  rw [u64Sub, h1, Nat.add_mod_left]
  exact Nat.mod_eq_of_lt (by omega)

lemma u64Sub_of_gt {a b : Nat} (hab : a < b) (hb : b < U64) : u64Sub a b = U64 + a - b := by
  have h1 : a + U64 - b = U64 + a - b := by omega
  rw [u64Sub, h1]
  exact Nat.mod_eq_of_lt (by omega)

lemma toI64_eq_self {x : Nat} (h : x < 2 ^ 63) : toI64 x = (x : Int) := by
  unfold toI64
  rw [Nat.mod_eq_of_lt (show x < U64 by unfold U64; omega)]
  rw [if_pos h]

lemma i64Wrap_eq_self {z : Int} (h1 : -(2 ^ 63) ≤ z) (h2 : z < 2 ^ 63) :
    i64Wrap z = z := by
  unfold i64Wrap
  have hmod : (z + 2 ^ 63) % (2 ^ 64 : Int) = z + 2 ^ 63 :=
    Int.emod_eq_of_lt (by omega) (by omega)
  rw [hmod]
  omega

lemma checkSlot_fst {blockExists : Nat → Bool} {slotLeaders : Nat → List String}
    {target : String} {slot : Nat} {p : Nat × Option String}
    (h : checkSlot blockExists slotLeaders target slot = some p) : p.1 = slot := by
  unfold checkSlot at h
  split at h
  · split at h
    · split at h
      · cases h; rfl
      · cases h
    · cases h; rfl
  · cases h; rfl

/-! Claim theorems -/

/-- C2 counterexample: requesting epoch `2 ^ 64 - 5` (a valid `u64` CLI
argument) with current epoch 700, absolute slot 300000000 at offset
150000 and 432000 slots per epoch: the `as i64` cast wraps the epoch to
`-5`, so the program yields first slot 0, while the claim's unbounded
signed formula yields a positive value of about `7.9 * 10 ^ 24`. -/
theorem epochFirstSlot_cast_wrap_counterexample :
    epochFirstSlot 18446744073709551611 700 300000000 150000 432000 = 0 ∧
    ((epochFirstSlot 18446744073709551611 700 300000000 150000 432000 : Int) ≠
      max ((300000000 : Int) - (150000 : Int) +
        ((18446744073709551611 : Int) - (700 : Int)) * (432000 : Int)) 0) := by
  constructor
  · decide
  · intro h
    rw [show epochFirstSlot 18446744073709551611 700 300000000 150000 432000 = 0
        from by decide] at h
    norm_num at h

/-- C2 amended.  The requested epoch's first absolute slot equals
`absolute_slot - slot_index` when the requested epoch is the current one
(well-defined under the `slot_index ≤ absolute_slot` precondition of the
`u64` data).  For any other epoch the program computes the signed value
`absolute_slot - slot_index + (epoch - current_epoch) * slots_in_epoch`
clamped below at 0 — so an epoch far enough in the past yields slot 0
rather than an error — provided every input fits in `i64` and neither
the product nor the sum overflows `i64`; outside those bounds the `as`
casts and `i64` operations wrap (see the counterexample). -/
theorem epochFirstSlot_correct (e c a i s : Nat) (hia : i ≤ a)
    (ha : a < 2 ^ 63) (he : e < 2 ^ 63) (hc : c < 2 ^ 63) (hs : s < 2 ^ 63)
    (hprodLo : -(2 ^ 63) ≤ ((e : Int) - (c : Int)) * (s : Int))
    (hprodHi : ((e : Int) - (c : Int)) * (s : Int) < 2 ^ 63)
    (hsumLo : -(2 ^ 63) ≤ (a : Int) - (i : Int) + ((e : Int) - (c : Int)) * (s : Int))
    (hsumHi : (a : Int) - (i : Int) + ((e : Int) - (c : Int)) * (s : Int) < 2 ^ 63) :
    (e = c → epochFirstSlot e c a i s = a - i) ∧
    (e ≠ c → (epochFirstSlot e c a i s : Int) =
        max ((a : Int) - (i : Int) + ((e : Int) - (c : Int)) * (s : Int)) 0) ∧
    (e ≠ c → (a : Int) - (i : Int) + ((e : Int) - (c : Int)) * (s : Int) ≤ 0 →
        epochFirstSlot e c a i s = 0) := by
  have hval : e ≠ c →
      epochFirstSlot e c a i s =
        (max ((a : Int) - (i : Int) + ((e : Int) - (c : Int)) * (s : Int)) 0).toNat := by
    intro h
    simp only [epochFirstSlot, if_neg h]
    rw [toI64_eq_self he, toI64_eq_self hc, toI64_eq_self hs,
      toI64_eq_self ha, toI64_eq_self (by omega : i < 2 ^ 63)]
    have h1 : i64Wrap ((e : Int) - (c : Int)) = (e : Int) - (c : Int) :=
      i64Wrap_eq_self (by omega) (by omega)
    have h2 : i64Wrap (((e : Int) - (c : Int)) * (s : Int)) =
        ((e : Int) - (c : Int)) * (s : Int) :=
      i64Wrap_eq_self hprodLo hprodHi
    have h3 : i64Wrap ((a : Int) - (i : Int)) = (a : Int) - (i : Int) :=
      i64Wrap_eq_self (by omega) (by omega)
    have h4 : i64Wrap ((a : Int) - (i : Int) + ((e : Int) - (c : Int)) * (s : Int)) =
        (a : Int) - (i : Int) + ((e : Int) - (c : Int)) * (s : Int) :=
      i64Wrap_eq_self hsumLo hsumHi
    rw [h1, h2, h3, h4]
  refine ⟨fun h => ?_, fun h => ?_, fun h hle => ?_⟩
  · subst h
    simp only [epochFirstSlot, if_pos rfl, currentEpochFirstSlot]
    exact u64Sub_of_le hia (show a < U64 by unfold U64; omega)
  · rw [hval h]
    exact Int.toNat_of_nonneg (le_max_right _ _)
  · rw [hval h, max_eq_right hle]
    rfl

/-- C2 witness: a run for epoch 0 when the current epoch is 100 with
1000 slots each, current absolute slot 1000 at offset 5; all bounds fit
in `i64`, the far-past formula is negative, so the first slot clamps to
0. -/
theorem epochFirstSlot_correct_witness :
    ((0 : Nat) = 100 → epochFirstSlot 0 100 1000 5 1000 = 1000 - 5) ∧
    ((0 : Nat) ≠ 100 → (epochFirstSlot 0 100 1000 5 1000 : Int) =
        max ((1000 : Int) - (5 : Int) + ((0 : Int) - (100 : Int)) * (1000 : Int)) 0) ∧
    ((0 : Nat) ≠ 100 → (1000 : Int) - (5 : Int) + ((0 : Int) - (100 : Int)) * (1000 : Int) ≤ 0 →
        epochFirstSlot 0 100 1000 5 1000 = 0) :=
  epochFirstSlot_correct 0 100 1000 5 1000 (by norm_num) (by norm_num)
    (by norm_num) (by norm_num) (by norm_num) (by norm_num) (by norm_num)
    (by norm_num) (by norm_num)

/-- C10.  The current-epoch branch is an unchecked `u64` subtraction:
its result is the mathematical difference `absolute_slot - slot_index`
exactly when `slot_index ≤ absolute_slot`; otherwise it wraps modulo
`2 ^ 64` to the (non-zero) value `2 ^ 64 + absolute_slot - slot_index`,
with no clamp to 0 (unlike the other-epoch branch, see
`epochFirstSlot_correct`). -/
theorem currentEpochFirstSlot_wraps (a i : Nat) (ha : a < U64) (hi : i < U64) :
    ((currentEpochFirstSlot a i : Int) = (a : Int) - (i : Int) ↔ i ≤ a) ∧
    (i ≤ a → currentEpochFirstSlot a i = a - i) ∧
    (a < i → currentEpochFirstSlot a i = U64 + a - i ∧ currentEpochFirstSlot a i ≠ 0) := by
  have hU : 0 < U64 := U64_pos
  rcases le_or_lt i a with hle | hgt
  · have hv : currentEpochFirstSlot a i = a - i := u64Sub_of_le hle ha
    refine ⟨?_, fun _ => hv, fun hlt => absurd hlt (by omega)⟩
    rw [hv]
    constructor
    · intro _; exact hle
    · intro _; omega
  · have hv : currentEpochFirstSlot a i = U64 + a - i := u64Sub_of_gt hgt hi
    refine ⟨?_, fun hle => absurd hle (by omega), fun _ => ⟨hv, by omega⟩⟩
    rw [hv]
    constructor
    · intro hcast
      exfalso
      omega
    · intro hle; omega

/-- C10 witness: at absolute slot 10 and slot offset 3 the subtraction
is well-defined and yields 7; the wrap condition is an equivalence at
this concrete input. -/
theorem currentEpochFirstSlot_wraps_witness :
    ((currentEpochFirstSlot 10 3 : Int) = (10 : Int) - (3 : Int) ↔ 3 ≤ 10) ∧
    ((3 : Nat) ≤ 10 → currentEpochFirstSlot 10 3 = 10 - 3) ∧
    ((10 : Nat) < 3 → currentEpochFirstSlot 10 3 = U64 + 10 - 3 ∧ currentEpochFirstSlot 10 3 ≠ 0) :=
  currentEpochFirstSlot_wraps 10 3 (by norm_num [U64]) (by norm_num [U64])

/-- C3.  Every checked slot falls in exactly one of three cases:
produced by the target (nothing recorded), produced by another or
unresolvable identity (a record with that identity, or with none, is
pushed), or no block at the slot (a record with no identity is pushed);
and a slot produced by the target never appears in the accumulated
non-produced list. -/
theorem slotClassification_trichotomy (blockExists : Nat → Bool)
    (slotLeaders : Nat → List String) (target : String) (currentSlot slot : Nat)
    (block : List Nat) :
    ((blockExists slot = true ∧ (slotLeaders slot).head? = some target ∧
        checkSlot blockExists slotLeaders target slot = none)
      ∨ (∃ leader, leader ≠ target ∧ blockExists slot = true ∧
          (slotLeaders slot).head? = some leader ∧
          checkSlot blockExists slotLeaders target slot = some (slot, some leader))
      ∨ ((blockExists slot = false ∨
            (blockExists slot = true ∧ (slotLeaders slot).head? = none)) ∧
          checkSlot blockExists slotLeaders target slot = some (slot, none))) ∧
    (blockExists slot = true → (slotLeaders slot).head? = some target →
      ∀ p ∈ nonProducedSlots blockExists slotLeaders target currentSlot block,
        p.1 ≠ slot) := by
  constructor
  · cases hbe : blockExists slot with
    | false =>
        refine Or.inr (Or.inr ⟨Or.inl rfl, ?_⟩)
        simp [checkSlot, hbe]
    | true =>
        cases hl : (slotLeaders slot).head? with
        | none =>
            refine Or.inr (Or.inr ⟨Or.inr ⟨rfl, rfl⟩, ?_⟩)
            simp [checkSlot, hbe, hl]
        | some leader =>
            by_cases htgt : leader = target
            · subst htgt
              refine Or.inl ⟨rfl, rfl, ?_⟩
              simp [checkSlot, hbe, hl]
            · refine Or.inr (Or.inl ⟨leader, htgt, rfl, rfl, ?_⟩)
              simp [checkSlot, hbe, hl, htgt]
  · intro hbe hl p hp hps
    rcases List.mem_filterMap.1 hp with ⟨a, ha, hfa⟩
    by_cases hfut : a > currentSlot
    · rw [if_pos hfut] at hfa; exact Option.noConfusion hfa
    · rw [if_neg hfut] at hfa
      have h1 : p.1 = a := checkSlot_fst hfa
      have h2 : a = slot := by rw [← h1, hps]
      rw [h2] at hfa
      have h3 : checkSlot blockExists slotLeaders target slot = none := by
        unfold checkSlot
        rw [if_pos hbe, hl]
        simp
      rw [h3] at hfa
      exact Option.noConfusion hfa

/-- C3 witness: with a chain where every slot has a block and the target
is always the resolved leader, checking slot 5 of block `[5]` records
nothing: the pair `(5, none)` is not in the non-produced list. -/
theorem slotClassification_trichotomy_witness :
    ¬ ((5, none) ∈ nonProducedSlots (fun _ => true) (fun _ => ["T"]) "T" 10 [5]) :=
  fun h =>
    (slotClassification_trichotomy (fun _ => true) (fun _ => ["T"]) "T" 10 5 [5]).2
      rfl rfl (5, none) h rfl

/-- C5.  When the queried validator is absent from the leader schedule
mapping, the run ends at the early `return Ok(())` with the
not-scheduled outcome and issues no block-existence check, slot-leader
lookup, or enrichment request at all (the call trace is empty). -/
theorem notScheduled_terminal (env : Env) (target : String)
    (h : env.leaderSchedule.lookup target = none) :
    run env target = (RunOutcome.notScheduled, []) := by
  unfold run
  rw [h]

/-- C5 witness: the schedule assigns slot 0 to V2 only; querying V1
terminates with the not-scheduled outcome and an empty call trace. -/
theorem notScheduled_terminal_witness :
    run ⟨0, none, 0, 0, 10, 10, [("V2", [0])], fun _ => false, fun _ => [],
        ⟨some []⟩, ⟨some []⟩⟩ "V1" = (RunOutcome.notScheduled, []) :=
  notScheduled_terminal _ "V1" (by rfl)

/-- C9.  Skip-blame membership is exact string equality against the
`identity_pubkey` fields: it holds iff some entry lists exactly the
identity, and when every listed form differs from the identity only in
letter casing (in particular is not equal to it), the identity is not
flagged. -/
theorem skipBlame_caseSensitive (vals : List SkipEntry) (idStr : String) :
    (isBadValidator vals idStr = true ↔
      ∃ e ∈ vals, e.identity_pubkey = some idStr) ∧
    ((∀ e ∈ vals, ∀ p, e.identity_pubkey = some p →
        p.data.map Char.toLower = idStr.data.map Char.toLower ∧ p ≠ idStr) →
      isBadValidator vals idStr = false) := by
  have hiff : isBadValidator vals idStr = true ↔
      ∃ e ∈ vals, e.identity_pubkey = some idStr := by
    unfold isBadValidator
    rw [List.any_eq_true]
    constructor
    · rintro ⟨e, he, hmatch⟩
      rcases hpk : e.identity_pubkey with _ | pk
      · rw [hpk] at hmatch; simp at hmatch
      · rw [hpk] at hmatch
        simp only [decide_eq_true_eq] at hmatch
        exact ⟨e, he, by rw [hpk, hmatch]⟩
    · rintro ⟨e, he, hpk⟩
      exact ⟨e, he, by rw [hpk]; simp⟩
  refine ⟨hiff, fun hcase => ?_⟩
  rw [Bool.eq_false_iff]
  intro htrue
  rcases hiff.1 htrue with ⟨e, he, hpk⟩
  exact (hcase e he idStr hpk).2 rfl

/-- C9 witness: the list contains only `"abc"`, a form of `"ABC"`
differing only in casing, so `"ABC"` is not flagged as bad. -/
theorem skipBlame_caseSensitive_witness :
    isBadValidator [⟨some "abc"⟩] "ABC" = false :=
  (skipBlame_caseSensitive [⟨some "abc"⟩] "ABC").2 (by decide)

lemma findRecord_eq_none (idStr : String) :
    ∀ (records : List LatRecord) (i : Nat),
      findRecord i records idStr = none ↔ ∀ r ∈ records, r.nodeAddress ≠ some idStr := by
  intro records
  induction records with
  | nil => intro i; simp [findRecord]
  | cons rec rs ih =>
      intro i
      unfold findRecord
      by_cases hmatch : rec.nodeAddress = some idStr
      · rw [if_pos hmatch]
        simp only [List.mem_cons]
        constructor
        · intro h; exact Option.noConfusion h
        · intro h; exact absurd hmatch (h rec (Or.inl rfl))
      · rw [if_neg hmatch, ih (i + 1)]
        constructor
        · intro h r hr
          rcases List.mem_cons.1 hr with hr0 | hrs
          · rw [hr0]; exact hmatch
          · exact h r hrs
        · intro h r hr
          exact h r (List.mem_cons_of_mem rec hr)

lemma findRecord_some_spec (idStr : String) :
    ∀ (records : List LatRecord) (i n : Nat) (r : LatRecord),
      findRecord i records idStr = some (n, r) →
      i ≤ n ∧ records[n - i]? = some r ∧ r.nodeAddress = some idStr ∧
        ∀ j, j < n - i → ∀ r', records[j]? = some r' → r'.nodeAddress ≠ some idStr := by
  intro records
  induction records with
  | nil => intro i n r h; exact absurd h (by simp [findRecord])
  | cons rec rs ih =>
      intro i n r h
      unfold findRecord at h
      by_cases hmatch : rec.nodeAddress = some idStr
      · rw [if_pos hmatch] at h
        have h1 : ((i, rec) : Nat × LatRecord) = (n, r) := Option.some.inj h
        have hn : i = n := congrArg Prod.fst h1
        have hr : rec = r := congrArg Prod.snd h1
        subst hn; subst hr
        refine ⟨le_refl i, by simp, hmatch, ?_⟩
        intro j hj r' hr'
        omega
      · rw [if_neg hmatch] at h
        rcases ih (i + 1) n r h with ⟨hin, hget, haddr, hprev⟩
        refine ⟨by omega, ?_, haddr, ?_⟩
        · have hidx : n - i = (n - (i + 1)) + 1 := by omega
          rw [hidx, List.getElem?_cons_succ]
          exact hget
        · intro j hj r' hr'
          cases j with
          | zero =>
              rw [List.getElem?_cons_zero] at hr'
              rw [← Option.some.inj hr']
              exact hmatch
          | succ k =>
              rw [List.getElem?_cons_succ] at hr'
              exact hprev k (by omega) r' hr'

lemma nonProducedLines_shape (nps : List (Nat × Option String)) :
    ∀ l ∈ nonProducedLines nps,
      (∃ s idStr, l = OutputLine.slotProducedByOther s idStr) ∨
        ∃ s, l = OutputLine.slotNotProduced s := by
  intro l hl
  rcases List.mem_map.1 hl with ⟨p, _, hp⟩
  rcases p with ⟨s, _ | leader⟩
  · exact Or.inr ⟨s, hp.symm⟩
  · exact Or.inl ⟨s, leader, hp.symm⟩

lemma not_mem_npl_plain (nps : List (Nat × Option String)) (s : Nat) (idStr : String) :
    OutputLine.prevLeaderPlain s idStr ∉ nonProducedLines nps := by
  intro h
  rcases nonProducedLines_shape nps _ h with ⟨s', idStr', h'⟩ | ⟨s', h'⟩ <;>
    exact OutputLine.noConfusion h'

lemma not_mem_npl_badList (nps : List (Nat × Option String)) (s : Nat)
    (idStr : String) (avg : ℚ) (rank : Nat) :
    OutputLine.prevLeaderOnBadList s idStr avg rank ∉ nonProducedLines nps := by
  intro h
  rcases nonProducedLines_shape nps _ h with ⟨s', idStr', h'⟩ | ⟨s', h'⟩ <;>
    exact OutputLine.noConfusion h'

lemma latencyFetch_not_issued (env : Env) (block : List Nat) :
    NetCall.latencyFetch ∉
      checkCalls env.blockExists env.currentSlot block ++ [NetCall.skipBlameFetch] := by
  intro h
  rcases List.mem_append.1 h with h | h
  · rcases List.mem_flatMap.1 h with ⟨a, -, ha⟩
    by_cases hfut : a > env.currentSlot
    · rw [if_pos hfut] at ha; exact List.not_mem_nil _ ha
    · rw [if_neg hfut] at ha
      rcases List.mem_cons.1 ha with h' | h'
      · exact NetCall.noConfusion h'
      · rcases hbe : env.blockExists a <;> rw [hbe] at h'
        · exact List.not_mem_nil _ h'
        · rcases List.mem_singleton.1 h' with h''
          exact NetCall.noConfusion h''
  · rcases List.mem_singleton.1 h with h'
    exact NetCall.noConfusion h'

/-- C6.  For every reported block, the previous neighbor slot is
`first_slot - 1` (Nat subtraction models `saturating_sub(1)`) and the
next is `last_slot + 1`; each is looked up in the global slot-to-leader
index, and absence from the index produces the unknown-leader report
line rather than an error (the reporting function is total). -/
theorem neighbor_resolution (env : Env) (target : String) (fes : Nat) (block : List Nat)
    (hne : nonProducedSlots env.blockExists env.slotLeaders target env.currentSlot block ≠ []) :
    (slotLookup env.leaderSchedule fes (block.head?.getD 0 - 1) = none →
      OutputLine.prevLeaderUnknown (block.head?.getD 0 - 1) ∈
        (reportBlock env target fes block).1) ∧
    (slotLookup env.leaderSchedule fes (block.getLast?.getD 0 + 1) = none →
      OutputLine.nextLeaderUnknown (block.getLast?.getD 0 + 1) ∈
        (reportBlock env target fes block).1) := by
  simp only [reportBlock]
  rw [if_neg (by simpa using hne)]
  constructor
  · intro hprev
    rw [hprev]
    simp [reportPrevLeader]
  · intro hnext
    rw [hnext]
    cases hpv : slotLookup env.leaderSchedule fes (block.head?.getD 0 - 1) with
    | none => simp [reportPrevLeader]
    | some pv => simp

/-- C6 witness: block `[100, 101]` with neither slot 99 nor slot 102 in
the index; both neighbors are reported as unknown. -/
theorem neighbor_resolution_witness :
    OutputLine.prevLeaderUnknown 99 ∈
      (reportBlock envFut "T" 0 [100, 101]).1 ∧
    OutputLine.nextLeaderUnknown 102 ∈
      (reportBlock envFut "T" 0 [100, 101]).1 :=
  ⟨(neighbor_resolution envFut "T" 0 [100, 101] (by decide)).1 (by decide),
    (neighbor_resolution envFut "T" 0 [100, 101] (by decide)).2 (by decide)⟩

/-- C7.  The latency enrichment selects the first (lowest-index) record
whose `nodeAddress` equals the identity and reports
`rank = zero_based_index + 1` together with
`average_latency = totalLatency / votedSlots`; when no record matches,
or the matched record's `totalLatency` or `votedSlots` is missing or
non-numeric, the detail is omitted (`none`), never a failure.  The
concrete example of the spec is included. -/
theorem latencyDetail_correct (records : List LatRecord) (idStr : String) :
    (∀ rank avg, latencyDetail records idStr = some (rank, avg) →
      1 ≤ rank ∧ ∃ r, records[rank - 1]? = some r ∧ r.nodeAddress = some idStr ∧
        (∀ j, j < rank - 1 → ∀ r', records[j]? = some r' →
          r'.nodeAddress ≠ some idStr) ∧
        ∃ t v, r.totalLatency = some t ∧ r.votedSlots = some v ∧
          avg = (t : ℚ) / (v : ℚ)) ∧
    ((∀ r ∈ records, r.nodeAddress ≠ some idStr) →
      latencyDetail records idStr = none) ∧
    (∀ n r, findRecord 0 records idStr = some (n, r) →
      r.totalLatency = none ∨ r.votedSlots = none →
      latencyDetail records idStr = none) ∧
    latencyDetail [⟨some "A", none, none⟩, ⟨some "B", some 100, some 10⟩] "B" =
      some (2, 10) := by
  refine ⟨?_, ?_, ?_, ?_⟩
  · intro rank avg h
    unfold latencyDetail at h
    cases hf : findRecord 0 records idStr with
    | none => rw [hf] at h; exact Option.noConfusion h
    | some p =>
        rcases p with ⟨n, rec⟩
        rw [hf] at h
        have h' : recordDetail n rec = some (rank, avg) := h
        rcases findRecord_some_spec idStr records 0 n rec hf with ⟨-, hget, haddr, hprev⟩
        unfold recordDetail at h'
        cases htl : rec.totalLatency with
        | none =>
            rw [htl] at h'
            cases hvs : rec.votedSlots <;> rw [hvs] at h' <;> exact Option.noConfusion h'
        | some t =>
            cases hvs : rec.votedSlots with
            | none => rw [htl, hvs] at h'; exact Option.noConfusion h'
            | some v =>
                rw [htl, hvs] at h'
                have h1 : ((n + 1 : Nat), ((t : ℚ) / (v : ℚ))) = (rank, avg) :=
                  Option.some.inj h'
                have hrank : n + 1 = rank := congrArg Prod.fst h1
                have havg : (t : ℚ) / (v : ℚ) = avg := congrArg Prod.snd h1
                refine ⟨by omega, rec, ?_, haddr, ?_, t, v, htl, hvs, havg.symm⟩
                · rw [show rank - 1 = n by omega]
                  simpa using hget
                · intro j hj r' hr'
                  exact hprev j (by omega) r' (by simpa using hr')
  · intro hnone
    unfold latencyDetail
    rw [(findRecord_eq_none idStr records 0).2 hnone]
  · intro n rec hf hmiss
    unfold latencyDetail
    rw [hf]
    show recordDetail n rec = none
    unfold recordDetail
    cases htl : rec.totalLatency with
    | none =>
        cases hvs : rec.votedSlots <;> rfl
    | some t =>
        cases hvs : rec.votedSlots with
        | none => rfl
        | some v =>
            exfalso
            rcases hmiss with h | h
            · rw [htl] at h; exact Option.noConfusion h
            · rw [hvs] at h; exact Option.noConfusion h
  · have hfind : findRecord 0
        [⟨some "A", none, none⟩, ⟨some "B", some 100, some 10⟩] "B" =
        some (1, ⟨some "B", some 100, some 10⟩) := by decide
    unfold latencyDetail
    rw [hfind]
    show recordDetail 1 ⟨some "B", some 100, some 10⟩ = some (2, 10)
    unfold recordDetail
    norm_num

/-- C7 witness: no record of the spec's example list matches identity
`"C"`, so the enrichment detail is omitted. -/
theorem latencyDetail_correct_witness :
    latencyDetail [⟨some "A", none, none⟩, ⟨some "B", some 100, some 10⟩] "C" = none :=
  (latencyDetail_correct [⟨some "A", none, none⟩, ⟨some "B", some 100, some 10⟩] "C").2.1
    (by decide)

/-- C8 counterexample: with `data.validators` absent (not an array),
the previous-leader reporting prints only the warning; contrary to the
claim, the leader `"X"` is not reported plainly. -/
theorem warnBranch_counterexample :
    (reportPrevLeader ⟨none⟩ ⟨some []⟩ 99 (some "X")).1 =
      [OutputLine.warningValidatorsMissing] ∧
    OutputLine.prevLeaderPlain 99 "X" ∉
      (reportPrevLeader ⟨none⟩ ⟨some []⟩ 99 (some "X")).1 := by
  constructor
  · rfl
  · intro h
    rw [show (reportPrevLeader ⟨none⟩ ⟨some []⟩ 99 (some "X")).1 =
        [OutputLine.warningValidatorsMissing] from rfl] at h
    simp at h

/-- C8 amended.  When the skip-blame response parses but
`data.validators` is not an array, a warning is logged, no latency
lookup is issued, and the run continues without failing (the rest of the
block report is still produced); however no previous-slot leader line is
printed at all — in particular the leader is not reported plainly. -/
theorem warnBranch_continues (env : Env) (target : String) (fes : Nat)
    (block : List Nat) (pv : String)
    (hval : env.skip.validators = none)
    (hne : nonProducedSlots env.blockExists env.slotLeaders target env.currentSlot block ≠ [])
    (hpv : slotLookup env.leaderSchedule fes (block.head?.getD 0 - 1) = some pv) :
    OutputLine.warningValidatorsMissing ∈ (reportBlock env target fes block).1 ∧
    OutputLine.ourSlots (block.head?.getD 0) (block.getLast?.getD 0) target ∈
      (reportBlock env target fes block).1 ∧
    (∀ s idStr, OutputLine.prevLeaderPlain s idStr ∉ (reportBlock env target fes block).1) ∧
    (∀ s idStr avg rank,
      OutputLine.prevLeaderOnBadList s idStr avg rank ∉ (reportBlock env target fes block).1) ∧
    NetCall.latencyFetch ∉ (reportBlock env target fes block).2 := by
  simp only [reportBlock]
  rw [if_neg (by simpa using hne), hpv]
  have hrep : reportPrevLeader env.skip env.lat (block.head?.getD 0 - 1) (some pv) =
      ([OutputLine.warningValidatorsMissing], [NetCall.skipBlameFetch]) := by
    unfold reportPrevLeader
    rw [hval]
  rw [hrep]
  cases hnx : slotLookup env.leaderSchedule fes (block.getLast?.getD 0 + 1) with
  | none =>
      refine ⟨by simp, by simp, ?_, ?_, latencyFetch_not_issued env block⟩
      · intro s idStr h
        rcases List.mem_cons.1 h with h | h
        · exact OutputLine.noConfusion h
        rcases List.mem_cons.1 h with h | h
        · exact OutputLine.noConfusion h
        rcases List.mem_cons.1 h with h | h
        · exact OutputLine.noConfusion h
        rcases List.mem_cons.1 h with h | h
        · exact OutputLine.noConfusion h
        exact not_mem_npl_plain _ _ _ h
      · intro s idStr avg rank h
        rcases List.mem_cons.1 h with h | h
        · exact OutputLine.noConfusion h
        rcases List.mem_cons.1 h with h | h
        · exact OutputLine.noConfusion h
        rcases List.mem_cons.1 h with h | h
        · exact OutputLine.noConfusion h
        rcases List.mem_cons.1 h with h | h
        · exact OutputLine.noConfusion h
        exact not_mem_npl_badList _ _ _ _ _ h
  | some nv =>
      refine ⟨by simp, by simp, ?_, ?_, latencyFetch_not_issued env block⟩
      · intro s idStr h
        rcases List.mem_cons.1 h with h | h
        · exact OutputLine.noConfusion h
        rcases List.mem_cons.1 h with h | h
        · exact OutputLine.noConfusion h
        rcases List.mem_cons.1 h with h | h
        · exact OutputLine.noConfusion h
        rcases List.mem_cons.1 h with h | h
        · exact OutputLine.noConfusion h
        exact not_mem_npl_plain _ _ _ h
      · intro s idStr avg rank h
        rcases List.mem_cons.1 h with h | h
        · exact OutputLine.noConfusion h
        rcases List.mem_cons.1 h with h | h
        · exact OutputLine.noConfusion h
        rcases List.mem_cons.1 h with h | h
        · exact OutputLine.noConfusion h
        rcases List.mem_cons.1 h with h | h
        · exact OutputLine.noConfusion h
        exact not_mem_npl_badList _ _ _ _ _ h

/-- C8 amended-claim witness: validator P leads slot 99, T leads 100 and
101, no block is produced, and the skip-blame body has no `validators`
array; the block report still contains the warning line. -/
theorem warnBranch_continues_witness :
    OutputLine.warningValidatorsMissing ∈
      (reportBlock
        ⟨0, none, 0, 0, 10, 200, [("P", [99]), ("T", [100, 101])],
          fun _ => false, fun _ => [], ⟨none⟩, ⟨some []⟩⟩
        "T" 0 [100, 101]).1 :=
  (warnBranch_continues
      ⟨0, none, 0, 0, 10, 200, [("P", [99]), ("T", [100, 101])],
        fun _ => false, fun _ => [], ⟨none⟩, ⟨some []⟩⟩
      "T" 0 [100, 101] "P" rfl (by decide) (by decide)).1

/-- C4 counterexample: in `envFut` the current slot is 100 and slot 101
is in the future, yet because slot 100 of the same block is
non-produced, the report's block-header line mentions slot 101. -/
theorem futureSlot_appears_counterexample :
    envFut.currentSlot < 101 ∧
    OutputLine.blockHeader [100, 101] ∈ runOutput envFut "T" ∧
    101 ∈ mentionedSlots (OutputLine.blockHeader [100, 101]) := by
  refine ⟨by decide, ?_, by decide⟩
  have hout : runOutput envFut "T" =
      [OutputLine.blockHeader [100, 101], OutputLine.prevLeaderUnknown 99,
        OutputLine.ourSlots 100 101 "T", OutputLine.nextLeaderUnknown 102,
        OutputLine.slotNotProduced 100] := by decide
  rw [hout]
  simp

/-- C4 amended.  A block slot strictly greater than the current chain
slot is never checked: it contributes no entry to the non-produced list
and no `get_blocks` or `get_slot_leaders` request; a slot exactly equal
to the current slot is still checked.  (Its number can however still
appear in report lines of its block, see the counterexample.) -/
theorem futureSlots_skipped (blockExists : Nat → Bool) (slotLeaders : Nat → List String)
    (target : String) (currentSlot : Nat) (block : List Nat) (slot : Nat)
    (hmem : slot ∈ block) :
    (slot > currentSlot →
      (∀ p ∈ nonProducedSlots blockExists slotLeaders target currentSlot block,
        p.1 ≠ slot) ∧
      NetCall.blockCheck slot ∉ checkCalls blockExists currentSlot block ∧
      NetCall.slotLeaderLookup slot ∉ checkCalls blockExists currentSlot block) ∧
    (slot = currentSlot →
      NetCall.blockCheck slot ∈ checkCalls blockExists currentSlot block) := by
  constructor
  · intro hfut
    refine ⟨?_, ?_, ?_⟩
    · intro p hp
      rcases List.mem_filterMap.1 hp with ⟨a, -, hfa⟩
      by_cases ha : a > currentSlot
      · rw [if_pos ha] at hfa; exact Option.noConfusion hfa
      · rw [if_neg ha] at hfa
        have : p.1 = a := checkSlot_fst hfa
        omega
    · intro h
      rcases List.mem_flatMap.1 h with ⟨a, -, ha⟩
      by_cases hfa : a > currentSlot
      · rw [if_pos hfa] at ha; exact List.not_mem_nil _ ha
      · rw [if_neg hfa] at ha
        rcases List.mem_cons.1 ha with h' | h'
        · have : slot = a := by
            exact NetCall.blockCheck.inj h'
          omega
        · rcases hbe : blockExists a <;> rw [hbe] at h'
          · exact List.not_mem_nil _ h'
          · rcases List.mem_singleton.1 h' with h''
            exact NetCall.noConfusion h''
    · intro h
      rcases List.mem_flatMap.1 h with ⟨a, -, ha⟩
      by_cases hfa : a > currentSlot
      · rw [if_pos hfa] at ha; exact List.not_mem_nil _ ha
      · rw [if_neg hfa] at ha
        rcases List.mem_cons.1 ha with h' | h'
        · exact NetCall.noConfusion h'
        · rcases hbe : blockExists a <;> rw [hbe] at h'
          · exact List.not_mem_nil _ h'
          · rcases List.mem_singleton.1 h' with h''
            have : slot = a := NetCall.slotLeaderLookup.inj h''
            omega
  · intro heq
    refine List.mem_flatMap.2 ⟨slot, hmem, ?_⟩
    rw [if_neg (by omega)]
    exact List.mem_cons_self _ _

/-- C4 amended-claim witness: in a block containing only the future slot
101 (current slot 100), no block-existence request is issued for 101. -/
theorem futureSlots_skipped_witness :
    NetCall.blockCheck 101 ∉ checkCalls (fun _ => true) 100 [101] :=
  ((futureSlots_skipped (fun _ => true) (fun _ => []) "T" 100 [101] 101
      (by decide)).1 (by decide)).2.1

lemma groupBlocksAux_flatten : ∀ (slots block : List Nat), slots ≠ [] →
    (groupBlocksAux slots block).flatten = block ++ slots
  | [], _, h => absurd rfl h
  | [slot], block, _ => by simp [groupBlocksAux]
  | slot :: next :: rest, block, _ => by
      simp only [groupBlocksAux]
      by_cases hc : next ≠ slot + 1 ∨ (block ++ [slot]).length = 4
      · rw [if_pos hc]
        rw [List.flatten_cons, groupBlocksAux_flatten (next :: rest) [] (by simp)]
        simp
      · rw [if_neg hc]
        rw [groupBlocksAux_flatten (next :: rest) (block ++ [slot]) (by simp)]
        simp

lemma groupBlocksAux_first : ∀ (s : Nat) (rest block : List Nat),
    ∃ t bs, groupBlocksAux (s :: rest) block = (block ++ s :: t) :: bs
  | s, [], block => ⟨[], [], by simp [groupBlocksAux]⟩
  | s, next :: r, block => by
      simp only [groupBlocksAux]
      by_cases hc : next ≠ s + 1 ∨ (block ++ [s]).length = 4
      · exact ⟨[], groupBlocksAux (next :: r) [], by rw [if_pos hc]⟩
      · rcases groupBlocksAux_first next r (block ++ [s]) with ⟨t, bs, ht⟩
        refine ⟨next :: t, bs, ?_⟩
        rw [if_neg hc, ht]
        simp

lemma chain'_concat_step {block : List Nat} {slot : Nat}
    (hchain : block.Chain' (fun x y => y = x + 1))
    (hlast : ∀ x, block.getLast? = some x → slot = x + 1) :
    (block ++ [slot]).Chain' (fun x y => y = x + 1) := by
  rw [List.chain'_append]
  refine ⟨hchain, List.chain'_singleton _, ?_⟩
  intro x hx y hy
  have hys : y = slot := by
    rw [Option.mem_def, List.head?_cons] at hy
    exact (Option.some.inj hy).symm
  rw [hys]
  exact hlast x (Option.mem_def.1 hx)

lemma groupBlocksAux_blocks : ∀ (slots block : List Nat),
    block.Chain' (fun x y => y = x + 1) → block.length ≤ 3 →
    (∀ x, block.getLast? = some x → slots.head? = some (x + 1)) →
    ∀ b ∈ groupBlocksAux slots block,
      b ≠ [] ∧ b.Chain' (fun x y => y = x + 1) ∧ b.length ≤ 4
  | [], block => by
      intro _ _ _ b hb
      simp [groupBlocksAux] at hb
  | [slot], block => by
      intro hchain hlen hlast b hb
      rw [show groupBlocksAux [slot] block = [block ++ [slot]] from rfl] at hb
      rw [List.mem_singleton.1 hb]
      refine ⟨by simp, ?_, by simp; omega⟩
      refine chain'_concat_step hchain ?_
      intro x hx
      have := hlast x hx
      rw [List.head?_cons] at this
      exact Option.some.inj this
  | slot :: next :: rest, block => by
      intro hchain hlen hlast b hb
      have hstep : ∀ x, block.getLast? = some x → slot = x + 1 := by
        intro x hx
        have := hlast x hx
        rw [List.head?_cons] at this
        exact Option.some.inj this
      simp only [groupBlocksAux] at hb
      by_cases hc : next ≠ slot + 1 ∨ (block ++ [slot]).length = 4
      · rw [if_pos hc] at hb
        rcases List.mem_cons.1 hb with hb1 | hb2
        · rw [hb1]
          exact ⟨by simp, chain'_concat_step hchain hstep, by simp; omega⟩
        · exact groupBlocksAux_blocks (next :: rest) [] List.chain'_nil
            (by simp) (by simp) b hb2
      · rw [if_neg hc] at hb
        push_neg at hc
        refine groupBlocksAux_blocks (next :: rest) (block ++ [slot])
          (chain'_concat_step hchain hstep) ?_ ?_ b hb
        · have : (block ++ [slot]).length ≠ 4 := hc.2
          simp at this ⊢
          omega
        · intro x hx
          rw [List.getLast?_concat] at hx
          rw [List.head?_cons, ← Option.some.inj hx, hc.1]

lemma groupBlocksAux_boundary : ∀ (slots block : List Nat),
    (groupBlocksAux slots block).Chain' (fun b b' => b.length = 4 ∨
      ∀ x y, b.getLast? = some x → b'.head? = some y → y ≠ x + 1)
  | [], block => by simp [groupBlocksAux]
  | [slot], block => by
      rw [show groupBlocksAux [slot] block = [block ++ [slot]] from rfl]
      exact List.chain'_singleton _
  | slot :: next :: rest, block => by
      simp only [groupBlocksAux]
      by_cases hc : next ≠ slot + 1 ∨ (block ++ [slot]).length = 4
      · rw [if_pos hc]
        rcases groupBlocksAux_first next rest [] with ⟨t, bs, ht⟩
        have hrec := groupBlocksAux_boundary (next :: rest) []
        rw [ht] at hrec ⊢
        simp only [List.nil_append] at hrec ⊢
        refine List.Chain'.cons ?_ hrec
        rcases hc with hgap | hfull
        · right
          intro x y hx hy
          rw [List.getLast?_concat] at hx
          rw [List.head?_cons] at hy
          rw [← Option.some.inj hx, ← Option.some.inj hy]
          exact hgap
        · exact Or.inl hfull
      · rw [if_neg hc]
        exact groupBlocksAux_boundary (next :: rest) (block ++ [slot])

/-- C1.  The grouper's output, for any strictly ascending input,
concatenates back to the input (each slot lands in exactly one block, in
order), every emitted block is a non-empty run of consecutive slots of
at most 4 slots, and a block is closed exactly at the claimed points:
between two adjacent blocks, either the first has reached 4 slots or the
next block does not continue it by exactly one (a gap), and the final
block closes at the end of input; the spec's example input produces
exactly `[[100,101,102,103],[104],[200,201]]`. -/
theorem groupBlocks_correct (slots : List Nat) (hsorted : slots.Chain' (· < ·)) :
    (groupBlocks slots).flatten = slots ∧
    (∀ b ∈ groupBlocks slots,
      b ≠ [] ∧ b.Chain' (fun x y => y = x + 1) ∧ b.length ≤ 4) ∧
    (groupBlocks slots).Chain' (fun b b' => b.length = 4 ∨
      ∀ x y, b.getLast? = some x → b'.head? = some y → y ≠ x + 1) ∧
    groupBlocks [100, 101, 102, 103, 104, 200, 201] =
      [[100, 101, 102, 103], [104], [200, 201]] := by
  refine ⟨?_, ?_, groupBlocksAux_boundary slots [], by decide⟩
  · cases slots with
    | nil => rfl
    | cons s r => exact groupBlocksAux_flatten (s :: r) [] (by simp)
  · intro b hb
    exact groupBlocksAux_blocks slots [] List.chain'_nil (by simp) (by simp) b hb

/-- C1 witness: the theorem applied to the spec's example input, whose
strict ascent is checked by evaluation. -/
theorem groupBlocks_correct_witness :
    groupBlocks [100, 101, 102, 103, 104, 200, 201] =
      [[100, 101, 102, 103], [104], [200, 201]] :=
  (groupBlocks_correct [100, 101, 102, 103, 104, 200, 201]
    (by norm_num [List.chain'_cons, List.chain'_singleton])).2.2.2

end LeadInspector
